import Mathlib

/-!
Verification of the geometric resampling and elevation-attachment core of
src/main.py (route resampling along an OpenRouteService polyline).

Modelling conventions.

Python floats (geographic coordinates, elevations, the sampling interval)
are modelled as exact rationals: every IEEE double is a rational number,
and all arithmetic the script performs on them (comparisons, floor
division, multiplication by a loop index) is modelled exactly.

The planar side (shapely LineString geometry and pyproj transforms) is
modelled over the reals.  The two pyproj transformers built by
interpolate_points from the EPSG code are external library objects whose
numerical content is not part of this repository, so they enter the model
as an abstract parameter (ProjLib): a forward transform for
Transformer.from_crs(EPSG 4326, utm, always_xy) and an inverse transform
for Transformer.from_crs(utm, EPSG 4326, always_xy).  The shapely calls
LineString(...).length and LineString(...).interpolate(d) have a precise
documented planar meaning, embedded here as lineLength and interpPoint:
length is the sum of the Euclidean lengths of the segments, and
interpolate walks the segments and linearly interpolates inside the
segment containing arc length d, clamping d beyond the total length to
the last vertex.  (Shapely measures negative distances from the end of
the line; the script only ever passes i * interval with i a natural
number, and a negative product only arises with a negative interval, in
which case the sampling loop is empty or passes exactly 0, so that case
is never exercised and is not modelled.)

Exceptions of the Python code are modelled by an Except result:
coords3[0] on an empty list raises IndexError, shapely refuses a
one-point LineString (ValueError), and total_len / interval_m raises
ZeroDivisionError when interval_m is zero.  Library failure modes that
depend on data outside the model (an EPSG code with no registry entry,
non-finite transform output) are outside it and noted where relevant.
-/

/-- Error outcomes of the Python functions, named after the exception the
interpreter or library raises. -/
inductive PyErr where
  | indexError : PyErr
  | valueError : PyErr
  | zeroDivisionError : PyErr
deriving DecidableEq, Repr

/-- Abstract pyproj: for an EPSG code, a forward transform (lon, lat) to
planar (x, y) and an inverse transform back to (lon, lat).  The inverse
returns rationals because the script reads its output back into Python
floats. -/
structure ProjLib where
  fwd : ℤ → ℚ × ℚ → ℝ × ℝ
  inv : ℤ → ℝ × ℝ → ℚ × ℚ

/-- Zone arithmetic of get_utm_crs: int((lon + 180) // 6 + 1).  Python
float floor division makes the quantity integral before int() truncates,
so the value is exactly floor((lon + 180) / 6) + 1. -/
def utmZone (lon : ℚ) : ℤ :=
  ⌊(lon + 180) / 6⌋ + 1

/-- get_utm_crs of src/main.py, returning the EPSG code passed to
CRS.from_epsg: 32700 + zone when lat < 0, else 32600 + zone. -/
def get_utm_crs (lon lat : ℚ) : ℤ :=
  if lat < 0 then 32700 + utmZone lon else 32600 + utmZone lon

/-- Euclidean length of one planar segment. -/
noncomputable def segLen (p q : ℝ × ℝ) : ℝ :=
  Real.sqrt ((q.1 - p.1) ^ 2 + (q.2 - p.2) ^ 2)

/-- Shapely LineString(...).length: sum of segment lengths. -/
noncomputable def lineLength : List (ℝ × ℝ) → ℝ
  | [] => 0
  | [_] => 0
  | p :: q :: rest => segLen p q + lineLength (q :: rest)

/-- Shapely LineString(...).interpolate(d) for d ≥ 0: walk the segments,
linear interpolation inside the segment containing arc length d, the last
vertex once d exceeds the total length.  (On a zero-length segment the
interpolant is the vertex itself: q - p vanishes.) -/
noncomputable def interpPoint : List (ℝ × ℝ) → ℝ → ℝ × ℝ
  | [], _ => (0, 0)
  | [p], _ => p
  | p :: q :: rest, d =>
    if d ≤ segLen p q then
      (p.1 + d / segLen p q * (q.1 - p.1), p.2 + d / segLen p q * (q.2 - p.2))
    else interpPoint (q :: rest) (d - segLen p q)

/-- The planar vertex list built by interpolate_points:
LineString([to_utm(lon, lat) for lon, lat, *_ in coords3]). -/
def planarOf (P : ProjLib) (epsg : ℤ) (coords3 : List (ℚ × ℚ × ℚ)) : List (ℝ × ℝ) :=
  coords3.map fun c => P.fwd epsg (c.1, c.2.1)

/-- interpolate_points of src/main.py.  Input triples are (lon, lat, elev)
as delivered by the routing API; output triples are (distance_m, lon, lat).
The first pattern models coords3[0] raising IndexError on an empty list,
the second models shapely rejecting a one-point LineString, and the zero
interval check models the ZeroDivisionError of total_len / interval_m. -/
noncomputable def interpolate_points (P : ProjLib) (coords3 : List (ℚ × ℚ × ℚ))
    (interval_m : ℚ) : Except PyErr (List (ℚ × ℚ × ℚ)) :=
  match coords3 with
  | [] => .error .indexError
  | c0 :: rest =>
    let utm_crs := get_utm_crs c0.1 c0.2.1
    match rest with
    | [] => .error .valueError
    | _ :: _ =>
      if interval_m = 0 then .error .zeroDivisionError
      else
        let line := planarOf P utm_crs (c0 :: rest)
        let num_points : ℤ := ⌊lineLength line / (interval_m : ℝ)⌋ + 1
        .ok ((List.range num_points.toNat).map fun (i : ℕ) =>
          let dist : ℚ := (i : ℚ) * interval_m
          let g := P.inv utm_crs (interpPoint line (dist : ℝ))
          (dist, g.1, g.2))

/-- Squared Euclidean distance on raw (lon, lat) degree pairs, the metric
the cKDTree of attach_elevation searches under (comparing squared
distances orders points exactly as comparing Euclidean distances). -/
def sqDist (p q : ℚ × ℚ) : ℚ :=
  (p.1 - q.1) ^ 2 + (p.2 - q.2) ^ 2

/-- Scan of the remaining base points keeping the best (index, squared
distance) seen so far; a strict comparison keeps the earliest index on
ties, the first-found order of a static tree over the list. -/
def nearestAux (p : ℚ × ℚ) : List (ℚ × ℚ) → ℕ → ℕ × ℚ → ℕ × ℚ
  | [], _, best => best
  | b :: bs, i, best =>
    if sqDist p b < best.2 then nearestAux p bs (i + 1) (i, sqDist p b)
    else nearestAux p bs (i + 1) best

/-- Index returned by tree.query([lon, lat]) on a nonempty base: the least
index attaining the minimal distance to p.  (cKDTree on an empty base is
a constructor error in the source; the total model returns 0 there and
every theorem below assumes a nonempty base.) -/
def nearestIdx (p : ℚ × ℚ) : List (ℚ × ℚ) → ℕ
  | [] => 0
  | b :: bs => (nearestAux p bs 1 (0, sqDist p b)).1

/-- attach_elevation of src/main.py: for each (dist, lon, lat) query the
nearest vertex of coords3 by raw-degree distance and emit
(dist, lat, lon, elevation of that vertex).  The getD default models the
out-of-range numpy access that cannot occur on a nonempty base. -/
def attach_elevation (points coords3 : List (ℚ × ℚ × ℚ)) : List (ℚ × ℚ × ℚ × ℚ) :=
  let base_xy := coords3.map fun c => (c.1, c.2.1)
  let elevs := coords3.map fun c => c.2.2
  points.map fun q =>
    (q.1, q.2.2, q.2.1, elevs.getD (nearestIdx (q.2.1, q.2.2) base_xy) 0)

/-- Degenerate transformer pair for concrete instantiations: everything to
the planar origin, everything back to (0, 0). -/
def constProj : ProjLib where
  fwd := fun _ _ => (0, 0)
  inv := fun _ _ => (0, 0)

/-- Transformer pair that reads rational coordinates as planar metres
unchanged (inverse collapsed to the origin). -/
def flatProj : ProjLib where
  fwd := fun _ p => ((p.1 : ℝ), (p.2 : ℝ))
  inv := fun _ _ => (0, 0)

/-! Basic facts about the planar curve model. -/

lemma segLen_nonneg (p q : ℝ × ℝ) : 0 ≤ segLen p q :=
  Real.sqrt_nonneg _

lemma lineLength_nonneg : ∀ l : List (ℝ × ℝ), 0 ≤ lineLength l
  | [] => le_refl 0
  | [_] => le_refl 0
  | p :: q :: rest =>
    add_nonneg (segLen_nonneg p q) (lineLength_nonneg (q :: rest))

lemma interpPoint_zero (p : ℝ × ℝ) (l : List (ℝ × ℝ)) :
    interpPoint (p :: l) 0 = p := by
  cases l with
  | nil => rfl
  | cons q rest =>
    simp only [interpPoint, if_pos (segLen_nonneg p q), zero_div, zero_mul,
      add_zero]

/-- Unfolding of interpolate_points on a well-formed call, exposing the
sampling map. -/
lemma interpolate_points_ok (P : ProjLib) (c0 c1 : ℚ × ℚ × ℚ)
    (rest : List (ℚ × ℚ × ℚ)) (interval_m : ℚ) (h : interval_m ≠ 0) :
    interpolate_points P (c0 :: c1 :: rest) interval_m =
      .ok ((List.range
          (⌊lineLength (planarOf P (get_utm_crs c0.1 c0.2.1) (c0 :: c1 :: rest)) /
              (interval_m : ℝ)⌋ + 1).toNat).map fun (i : ℕ) =>
        (((i : ℚ) * interval_m),
          (P.inv (get_utm_crs c0.1 c0.2.1)
            (interpPoint (planarOf P (get_utm_crs c0.1 c0.2.1) (c0 :: c1 :: rest))
              (((i : ℚ) * interval_m : ℚ) : ℝ))).1,
          (P.inv (get_utm_crs c0.1 c0.2.1)
            (interpPoint (planarOf P (get_utm_crs c0.1 c0.2.1) (c0 :: c1 :: rest))
              (((i : ℚ) * interval_m : ℚ) : ℝ))).2)) := by
  simp only [interpolate_points, if_neg h]

/-- Sample count of a well-formed call, as an integer. -/
lemma interpolate_points_length (P : ProjLib) (c0 c1 : ℚ × ℚ × ℚ)
    (rest : List (ℚ × ℚ × ℚ)) (interval_m : ℚ) (hpos : 0 < interval_m) :
    ∀ pts, interpolate_points P (c0 :: c1 :: rest) interval_m = .ok pts →
      (pts.length : ℤ) =
        ⌊lineLength (planarOf P (get_utm_crs c0.1 c0.2.1) (c0 :: c1 :: rest)) /
            (interval_m : ℝ)⌋ + 1 := by
  intro pts hpts
  rw [interpolate_points_ok P c0 c1 rest interval_m (ne_of_gt hpos)] at hpts
  have hfloor : (0 : ℤ) ≤
      ⌊lineLength (planarOf P (get_utm_crs c0.1 c0.2.1) (c0 :: c1 :: rest)) /
          (interval_m : ℝ)⌋ := by
    apply Int.floor_nonneg.2
    apply div_nonneg (lineLength_nonneg _)
    exact_mod_cast le_of_lt hpos
  cases hpts
  rw [List.length_map, List.length_range]
  exact Int.toNat_of_nonneg (by omega)

/-- The i-th sample of a well-formed call. -/
lemma interpolate_points_get (P : ProjLib) (c0 c1 : ℚ × ℚ × ℚ)
    (rest : List (ℚ × ℚ × ℚ)) (interval_m : ℚ) (h : interval_m ≠ 0)
    (pts : List (ℚ × ℚ × ℚ))
    (hpts : interpolate_points P (c0 :: c1 :: rest) interval_m = .ok pts)
    (i : ℕ) (hi : i < pts.length) :
    pts.get ⟨i, hi⟩ =
      (((i : ℚ) * interval_m),
        (P.inv (get_utm_crs c0.1 c0.2.1)
          (interpPoint (planarOf P (get_utm_crs c0.1 c0.2.1) (c0 :: c1 :: rest))
            (((i : ℚ) * interval_m : ℚ) : ℝ))).1,
        (P.inv (get_utm_crs c0.1 c0.2.1)
          (interpPoint (planarOf P (get_utm_crs c0.1 c0.2.1) (c0 :: c1 :: rest))
            (((i : ℚ) * interval_m : ℚ) : ℝ))).2) := by
  rw [interpolate_points_ok P c0 c1 rest interval_m h] at hpts
  injection hpts with h2
  subst h2
  simp [List.get_eq_getElem, List.getElem_map, List.getElem_range]

/-- Distance of the i-th sample. -/
lemma interpolate_points_get_dist (P : ProjLib) (c0 c1 : ℚ × ℚ × ℚ)
    (rest : List (ℚ × ℚ × ℚ)) (interval_m : ℚ) (h : interval_m ≠ 0)
    (pts : List (ℚ × ℚ × ℚ))
    (hpts : interpolate_points P (c0 :: c1 :: rest) interval_m = .ok pts)
    (i : ℕ) (hi : i < pts.length) :
    (pts.get ⟨i, hi⟩).1 = (i : ℚ) * interval_m := by
  rw [interpolate_points_get P c0 c1 rest interval_m h pts hpts i hi]

/-- Interpolating the projected vertex list at arc length zero lands on
the projected first vertex. -/
lemma interpPoint_planar_zero (P : ProjLib) (e : ℤ) (c0 : ℚ × ℚ × ℚ)
    (cs : List (ℚ × ℚ × ℚ)) :
    interpPoint (planarOf P e (c0 :: cs)) 0 = P.fwd e (c0.1, c0.2.1) := by
  simp only [planarOf, List.map_cons]
  exact interpPoint_zero _ _

/-- C1: for every input geometry of at least 2 vertices and every positive
interval, interpolate_points succeeds and returns exactly
floor(L / interval) + 1 samples, where L is the planar arc length of the
projected vertex polyline; when L < interval the output is the single
sample at distance 0 whose coordinates are the projection round trip of
the first vertex (this covers the degenerate L = 0 case of identical
vertices). -/
theorem interpolate_points_count (P : ProjLib) (c0 c1 : ℚ × ℚ × ℚ)
    (rest : List (ℚ × ℚ × ℚ)) (interval_m : ℚ) (hpos : 0 < interval_m) :
    ∃ pts, interpolate_points P (c0 :: c1 :: rest) interval_m = .ok pts ∧
      (pts.length : ℤ) =
        ⌊lineLength (planarOf P (get_utm_crs c0.1 c0.2.1) (c0 :: c1 :: rest)) /
            (interval_m : ℝ)⌋ + 1 ∧
      (lineLength (planarOf P (get_utm_crs c0.1 c0.2.1) (c0 :: c1 :: rest)) <
          (interval_m : ℝ) →
        pts = [(0,
          (P.inv (get_utm_crs c0.1 c0.2.1)
            (P.fwd (get_utm_crs c0.1 c0.2.1) (c0.1, c0.2.1))).1,
          (P.inv (get_utm_crs c0.1 c0.2.1)
            (P.fwd (get_utm_crs c0.1 c0.2.1) (c0.1, c0.2.1))).2)]) := by
  refine ⟨_, interpolate_points_ok P c0 c1 rest interval_m (ne_of_gt hpos),
    ?_, ?_⟩
  · exact interpolate_points_length P c0 c1 rest interval_m hpos _
      (interpolate_points_ok P c0 c1 rest interval_m (ne_of_gt hpos))
  · intro hlt
    have hipos : (0 : ℝ) < (interval_m : ℝ) := by exact_mod_cast hpos
    have hfl :
        ⌊lineLength (planarOf P (get_utm_crs c0.1 c0.2.1) (c0 :: c1 :: rest)) /
            (interval_m : ℝ)⌋ = 0 := by
      apply Int.floor_eq_zero_iff.2
      constructor
      · exact div_nonneg (lineLength_nonneg _) hipos.le
      · exact (div_lt_one hipos).2 hlt
    rw [hfl]
    norm_num
    rw [show List.range 1 = [0] from rfl, List.map_singleton]
    norm_num
    rw [interpPoint_planar_zero]

/-- Witness for C1 at a concrete two-vertex route and interval 1. -/
theorem interpolate_points_count_witness :
    (0 : ℚ) < 1 ∧
    (∃ pts, interpolate_points constProj [(0, 0, 0), (1, 1, 1)] 1 = .ok pts ∧
      (pts.length : ℤ) =
        ⌊lineLength (planarOf constProj (get_utm_crs 0 0) [(0, 0, 0), (1, 1, 1)]) /
            ((1 : ℚ) : ℝ)⌋ + 1 ∧
      (lineLength (planarOf constProj (get_utm_crs 0 0) [(0, 0, 0), (1, 1, 1)]) <
          ((1 : ℚ) : ℝ) →
        pts = [(0,
          (constProj.inv (get_utm_crs 0 0)
            (constProj.fwd (get_utm_crs 0 0) (0, 0))).1,
          (constProj.inv (get_utm_crs 0 0)
            (constProj.fwd (get_utm_crs 0 0) (0, 0))).2)])) :=
  ⟨by norm_num,
    interpolate_points_count constProj (0, 0, 0) (1, 1, 1) [] 1 (by norm_num)⟩

/-- C4: for every geometry of at least 2 vertices and positive interval,
the sample distances start at 0, consecutive distances differ by exactly
the interval, the sequence is strictly increasing, and no sample lies
beyond floor(L / interval) * interval. -/
theorem interpolate_points_dists (P : ProjLib) (c0 c1 : ℚ × ℚ × ℚ)
    (rest : List (ℚ × ℚ × ℚ)) (interval_m : ℚ) (hpos : 0 < interval_m) :
    ∃ pts, interpolate_points P (c0 :: c1 :: rest) interval_m = .ok pts ∧
      (∀ h0 : 0 < pts.length, (pts.get ⟨0, h0⟩).1 = 0) ∧
      (∀ i (hi : i + 1 < pts.length),
        (pts.get ⟨i + 1, hi⟩).1 - (pts.get ⟨i, Nat.lt_of_succ_lt hi⟩).1 =
          interval_m) ∧
      (∀ i j (hi : i < pts.length) (hj : j < pts.length), i < j →
        (pts.get ⟨i, hi⟩).1 < (pts.get ⟨j, hj⟩).1) ∧
      (∀ i (hi : i < pts.length),
        ((pts.get ⟨i, hi⟩).1 : ℝ) ≤
          (⌊lineLength (planarOf P (get_utm_crs c0.1 c0.2.1) (c0 :: c1 :: rest)) /
              (interval_m : ℝ)⌋ : ℝ) * (interval_m : ℝ)) := by
  obtain ⟨pts, hok⟩ : ∃ pts,
      interpolate_points P (c0 :: c1 :: rest) interval_m = .ok pts :=
    ⟨_, interpolate_points_ok P c0 c1 rest interval_m (ne_of_gt hpos)⟩
  have hd := interpolate_points_get_dist P c0 c1 rest interval_m
    (ne_of_gt hpos) pts hok
  refine ⟨pts, hok, ?_, ?_, ?_, ?_⟩
  · intro h0
    rw [hd 0 h0]
    norm_num
  · intro i hi
    rw [hd (i + 1) hi, hd i (Nat.lt_of_succ_lt hi)]
    push_cast
    ring
  · intro i j hi hj hij
    rw [hd i hi, hd j hj]
    have : (i : ℚ) < (j : ℚ) := by exact_mod_cast hij
    exact mul_lt_mul_of_pos_right this hpos
  · intro i hi
    rw [hd i hi]
    have hlen := interpolate_points_length P c0 c1 rest interval_m hpos pts hok
    have hibound : (i : ℤ) ≤
        ⌊lineLength (planarOf P (get_utm_crs c0.1 c0.2.1) (c0 :: c1 :: rest)) /
            (interval_m : ℝ)⌋ := by
      have : (i : ℤ) < (pts.length : ℤ) := by exact_mod_cast hi
      omega
    have hcast : ((i : ℤ) : ℝ) ≤
        ((⌊lineLength (planarOf P (get_utm_crs c0.1 c0.2.1) (c0 :: c1 :: rest)) /
            (interval_m : ℝ)⌋ : ℤ) : ℝ) := by exact_mod_cast hibound
    have hipos : (0 : ℝ) ≤ (interval_m : ℝ) := by exact_mod_cast hpos.le
    push_cast
    push_cast at hcast
    exact mul_le_mul_of_nonneg_right hcast hipos

/-- Witness for C4 at a concrete two-vertex route and interval 2. -/
theorem interpolate_points_dists_witness :
    (0 : ℚ) < 2 ∧
    (∃ pts, interpolate_points constProj [(3, 4, 7), (5, 6, 8)] 2 = .ok pts ∧
      (∀ h0 : 0 < pts.length, (pts.get ⟨0, h0⟩).1 = 0) ∧
      (∀ i (hi : i + 1 < pts.length),
        (pts.get ⟨i + 1, hi⟩).1 - (pts.get ⟨i, Nat.lt_of_succ_lt hi⟩).1 =
          2) ∧
      (∀ i j (hi : i < pts.length) (hj : j < pts.length), i < j →
        (pts.get ⟨i, hi⟩).1 < (pts.get ⟨j, hj⟩).1) ∧
      (∀ i (hi : i < pts.length),
        ((pts.get ⟨i, hi⟩).1 : ℝ) ≤
          (⌊lineLength (planarOf constProj (get_utm_crs 3 4)
              [(3, 4, 7), (5, 6, 8)]) / ((2 : ℚ) : ℝ)⌋ : ℝ) * ((2 : ℚ) : ℝ))) :=
  ⟨by norm_num,
    interpolate_points_dists constProj (3, 4, 7) (5, 6, 8) [] 2 (by norm_num)⟩

/-- C5: for every geometry of at least 2 vertices and positive interval,
the first sample has distance 0 and its geographic coordinates are the
forward-then-inverse projection round trip of the first input vertex. -/
theorem interpolate_points_first (P : ProjLib) (c0 c1 : ℚ × ℚ × ℚ)
    (rest : List (ℚ × ℚ × ℚ)) (interval_m : ℚ) (hpos : 0 < interval_m) :
    ∃ pts, interpolate_points P (c0 :: c1 :: rest) interval_m = .ok pts ∧
      ∃ h0 : 0 < pts.length,
        pts.get ⟨0, h0⟩ =
          (0, (P.inv (get_utm_crs c0.1 c0.2.1)
              (P.fwd (get_utm_crs c0.1 c0.2.1) (c0.1, c0.2.1))).1,
            (P.inv (get_utm_crs c0.1 c0.2.1)
              (P.fwd (get_utm_crs c0.1 c0.2.1) (c0.1, c0.2.1))).2) := by
  obtain ⟨pts, hok⟩ : ∃ pts,
      interpolate_points P (c0 :: c1 :: rest) interval_m = .ok pts :=
    ⟨_, interpolate_points_ok P c0 c1 rest interval_m (ne_of_gt hpos)⟩
  have hlen := interpolate_points_length P c0 c1 rest interval_m hpos pts hok
  have hfl : (0 : ℤ) ≤
      ⌊lineLength (planarOf P (get_utm_crs c0.1 c0.2.1) (c0 :: c1 :: rest)) /
          (interval_m : ℝ)⌋ := by
    apply Int.floor_nonneg.2
    apply div_nonneg (lineLength_nonneg _)
    exact_mod_cast hpos.le
  have h0 : 0 < pts.length := by omega
  refine ⟨pts, hok, h0, ?_⟩
  rw [interpolate_points_get P c0 c1 rest interval_m (ne_of_gt hpos) pts hok 0 h0]
  norm_num
  rw [interpPoint_planar_zero]

/-- Witness for C5 at a concrete two-vertex route and interval 5. -/
theorem interpolate_points_first_witness :
    (0 : ℚ) < 5 ∧
    (∃ pts, interpolate_points constProj [(2, 3, 9), (4, 5, 9)] 5 = .ok pts ∧
      ∃ h0 : 0 < pts.length,
        pts.get ⟨0, h0⟩ =
          (0, (constProj.inv (get_utm_crs 2 3)
              (constProj.fwd (get_utm_crs 2 3) (2, 3))).1,
            (constProj.inv (get_utm_crs 2 3)
              (constProj.fwd (get_utm_crs 2 3) (2, 3))).2)) :=
  ⟨by norm_num,
    interpolate_points_first constProj (2, 3, 9) (4, 5, 9) [] 5 (by norm_num)⟩

/-- planarOf factors through the horizontal components of the vertices. -/
lemma planarOf_eq (P : ProjLib) (e : ℤ) (l : List (ℚ × ℚ × ℚ)) :
    planarOf P e l = (l.map fun t => (t.1, t.2.1)).map (P.fwd e) := by
  simp [planarOf, List.map_map, Function.comp]

/-- C9: interpolate_points ignores the elevation component of its input:
two geometries with the same per-vertex (lon, lat) components and the same
interval produce identical results. -/
theorem interpolate_points_elev_irrelevant (P : ProjLib)
    (c c2 : List (ℚ × ℚ × ℚ)) (interval_m : ℚ)
    (h : c.map (fun t => (t.1, t.2.1)) = c2.map fun t => (t.1, t.2.1)) :
    interpolate_points P c interval_m = interpolate_points P c2 interval_m := by
  cases c with
  | nil =>
    cases c2 with
    | nil => rfl
    | cons b bs => simp at h
  | cons a as =>
    cases c2 with
    | nil => simp at h
    | cons b bs =>
      have hhead : (a.1, a.2.1) = (b.1, b.2.1) := by
        have := congrArg (fun l => l.head?) h
        simpa using this
      have ha1 : a.1 = b.1 := (Prod.ext_iff.1 hhead).1
      have ha2 : a.2.1 = b.2.1 := (Prod.ext_iff.1 hhead).2
      cases as with
      | nil =>
        cases bs with
        | nil => rfl
        | cons b1 bs1 => simp at h
      | cons a1 as1 =>
        cases bs with
        | nil => simp at h
        | cons b1 bs1 =>
          by_cases hz : interval_m = 0
          · simp [interpolate_points, hz]
          · rw [interpolate_points_ok P a a1 as1 interval_m hz,
              interpolate_points_ok P b b1 bs1 interval_m hz]
            have he : get_utm_crs a.1 a.2.1 = get_utm_crs b.1 b.2.1 := by
              rw [ha1, ha2]
            have hp : planarOf P (get_utm_crs b.1 b.2.1) (a :: a1 :: as1) =
                planarOf P (get_utm_crs b.1 b.2.1) (b :: b1 :: bs1) := by
              rw [planarOf_eq, planarOf_eq, h]
            rw [he, hp]

/-- Witness for C9: two routes with equal horizontal tracks and different
elevations resample identically. -/
theorem interpolate_points_elev_irrelevant_witness :
    ([((0 : ℚ), (0 : ℚ), (5 : ℚ)), (1, 1, 7)].map (fun t => (t.1, t.2.1)) =
      [((0 : ℚ), (0 : ℚ), (9 : ℚ)), (1, 1, 3)].map fun t => (t.1, t.2.1)) ∧
    interpolate_points constProj [(0, 0, 5), (1, 1, 7)] 1 =
      interpolate_points constProj [(0, 0, 9), (1, 1, 3)] 1 :=
  ⟨rfl, interpolate_points_elev_irrelevant constProj
    [(0, 0, 5), (1, 1, 7)] [(0, 0, 9), (1, 1, 3)] 1 rfl⟩

/-! Correctness of the first-found argmin modelling the k-d tree query. -/

lemma nearestAux_le (p : ℚ × ℚ) :
    ∀ (l : List (ℚ × ℚ)) (i : ℕ) (best : ℕ × ℚ),
      (nearestAux p l i best).2 ≤ best.2 := by
  intro l
  induction l with
  | nil => intro i best; exact le_refl _
  | cons b bs ih =>
    intro i best
    simp only [nearestAux]
    split
    · exact le_trans (ih (i + 1) (i, sqDist p b)) (le_of_lt (by assumption))
    · exact ih (i + 1) best

lemma nearestAux_min (p : ℚ × ℚ) :
    ∀ (l : List (ℚ × ℚ)) (i : ℕ) (best : ℕ × ℚ) (j : ℕ), j < l.length →
      (nearestAux p l i best).2 ≤ sqDist p (l.getD j (0, 0)) := by
  intro l
  induction l with
  | nil => intro i best j h; exact absurd h (Nat.not_lt_zero j)
  | cons b bs ih =>
    intro i best j h
    cases j with
    | zero =>
      simp only [nearestAux, List.getD_cons_zero]
      split
      · exact nearestAux_le p bs (i + 1) (i, sqDist p b)
      · exact le_trans (nearestAux_le p bs (i + 1) best) (not_lt.1 (by assumption))
    | succ j =>
      simp only [nearestAux, List.getD_cons_succ]
      split
      · exact ih (i + 1) (i, sqDist p b) j (Nat.lt_of_succ_lt_succ h)
      · exact ih (i + 1) best j (Nat.lt_of_succ_lt_succ h)

lemma nearestAux_cases (p : ℚ × ℚ) :
    ∀ (l : List (ℚ × ℚ)) (i : ℕ) (best : ℕ × ℚ),
      nearestAux p l i best = best ∨
        ∃ j, j < l.length ∧
          nearestAux p l i best = (j + i, sqDist p (l.getD j (0, 0))) := by
  intro l
  induction l with
  | nil => intro i best; exact Or.inl rfl
  | cons b bs ih =>
    intro i best
    simp only [nearestAux]
    split
    · rcases ih (i + 1) (i, sqDist p b) with heq | ⟨j, hj, heq⟩
      · exact Or.inr ⟨0, Nat.succ_pos _, by simpa using heq⟩
      · refine Or.inr ⟨j + 1, Nat.succ_lt_succ hj, ?_⟩
        rw [heq, show j + (i + 1) = j + 1 + i from by omega]
        rfl
    · rcases ih (i + 1) best with heq | ⟨j, hj, heq⟩
      · exact Or.inl heq
      · refine Or.inr ⟨j + 1, Nat.succ_lt_succ hj, ?_⟩
        rw [heq, show j + (i + 1) = j + 1 + i from by omega]
        rfl

/-- The index returned by the query is in range. -/
lemma nearestIdx_lt (p b : ℚ × ℚ) (bs : List (ℚ × ℚ)) :
    nearestIdx p (b :: bs) < (b :: bs).length := by
  simp only [nearestIdx]
  rcases nearestAux_cases p bs 1 (0, sqDist p b) with heq | ⟨j, hj, heq⟩
  · rw [heq]; exact Nat.succ_pos _
  · rw [heq]
    show j + 1 < bs.length + 1
    omega

/-- The queried vertex minimizes the squared raw-degree distance over the
whole base (squared and Euclidean distance order points identically). -/
lemma nearestIdx_spec (p b : ℚ × ℚ) (bs : List (ℚ × ℚ)) :
    ∀ j, j < (b :: bs).length →
      sqDist p ((b :: bs).getD (nearestIdx p (b :: bs)) (0, 0)) ≤
        sqDist p ((b :: bs).getD j (0, 0)) := by
  simp only [nearestIdx]
  rcases nearestAux_cases p bs 1 (0, sqDist p b) with heq | ⟨j0, hj0, heq⟩
  · rw [heq]
    intro j hj
    cases j with
    | zero => exact le_refl _
    | succ j =>
      have hm := nearestAux_min p bs 1 (0, sqDist p b) j
        (Nat.lt_of_succ_lt_succ hj)
      rw [heq] at hm
      exact hm
  · rw [heq]
    intro j hj
    simp only [List.getD_cons_succ]
    cases j with
    | zero =>
      have hm := nearestAux_le p bs 1 (0, sqDist p b)
      rw [heq] at hm
      exact hm
    | succ j =>
      have hm := nearestAux_min p bs 1 (0, sqDist p b) j
        (Nat.lt_of_succ_lt_succ hj)
      rw [heq] at hm
      exact hm

/-- Reading a mapped list below its length ignores both defaults. -/
lemma getD_map_lt {α β : Type} (f : α → β) :
    ∀ (l : List α) (n : ℕ), n < l.length → ∀ (d : β) (d2 : α),
      (l.map f).getD n d = f (l.getD n d2) := by
  intro l
  induction l with
  | nil => intro n h; exact absurd h (Nat.not_lt_zero n)
  | cons a as ih =>
    intro n h d d2
    cases n with
    | zero => rfl
    | succ n =>
      simp only [List.map_cons, List.getD_cons_succ]
      exact ih n (Nat.lt_of_succ_lt_succ h) d d2

/-- C2: on a nonempty reference geometry, the elevation attached to each
resampled point is copied verbatim from a vertex of coords3 that attains
the minimal raw-degree distance to the point over all vertices; in
particular every output elevation is the elevation of some input
vertex. -/
theorem attach_elevation_nearest (points coords3 : List (ℚ × ℚ × ℚ))
    (c : ℚ × ℚ × ℚ) (cs : List (ℚ × ℚ × ℚ)) (hc : coords3 = c :: cs)
    (i : ℕ) (hi : i < points.length) :
    ∃ k, k < coords3.length ∧
      ((attach_elevation points coords3).getD i (0, 0, 0, 0)).2.2.2 =
        (coords3.getD k (0, 0, 0)).2.2 ∧
      ∀ j, j < coords3.length →
        sqDist ((points.getD i (0, 0, 0)).2.1, (points.getD i (0, 0, 0)).2.2)
            ((coords3.getD k (0, 0, 0)).1, (coords3.getD k (0, 0, 0)).2.1) ≤
          sqDist ((points.getD i (0, 0, 0)).2.1, (points.getD i (0, 0, 0)).2.2)
            ((coords3.getD j (0, 0, 0)).1, (coords3.getD j (0, 0, 0)).2.1) := by
  subst hc
  set q : ℚ × ℚ :=
    ((points.getD i (0, 0, 0)).2.1, (points.getD i (0, 0, 0)).2.2) with hq
  set base := (c :: cs).map fun t => (t.1, t.2.1) with hbase
  have hblen : base.length = (c :: cs).length := by
    rw [hbase, List.length_map]
  refine ⟨nearestIdx q base, ?_, ?_, ?_⟩
  · have := nearestIdx_lt q (c.1, c.2.1) (cs.map fun t => (t.1, t.2.1))
    simpa [hbase] using this
  · have hout : (attach_elevation points (c :: cs)).getD i (0, 0, 0, 0) =
        ((points.getD i (0, 0, 0)).1, (points.getD i (0, 0, 0)).2.2,
          (points.getD i (0, 0, 0)).2.1,
          (((c :: cs).map fun t => t.2.2).getD
            (nearestIdx ((points.getD i (0, 0, 0)).2.1,
              (points.getD i (0, 0, 0)).2.2) base) 0)) := by
      simp only [attach_elevation]
      exact getD_map_lt _ points i hi _ _
    rw [hout]
    have hk : nearestIdx q base < (c :: cs).length := by
      have := nearestIdx_lt q (c.1, c.2.1) (cs.map fun t => (t.1, t.2.1))
      simpa [hbase] using this
    exact getD_map_lt (fun t => t.2.2) (c :: cs) (nearestIdx q base)
      hk 0 (0, 0, 0)
  · intro j hj
    have hspec := nearestIdx_spec q (c.1, c.2.1)
      ((cs.map fun t => (t.1, t.2.1))) j
    rw [show ((c.1, c.2.1) :: cs.map fun t => (t.1, t.2.1)) = base from by
      rw [hbase]; rfl] at hspec
    have hspec2 := hspec (by rw [hblen]; exact hj)
    have hk : nearestIdx q base < (c :: cs).length := by
      have := nearestIdx_lt q (c.1, c.2.1) (cs.map fun t => (t.1, t.2.1))
      simpa [hbase] using this
    rw [hbase] at hspec2
    rw [getD_map_lt (fun t => (t.1, t.2.1)) (c :: cs) _ hk (0, 0) (0, 0, 0)] at hspec2
    rw [getD_map_lt (fun t => (t.1, t.2.1)) (c :: cs) j hj (0, 0) (0, 0, 0)] at hspec2
    exact hspec2

/-- Witness for C2: one resampled point at (lon, lat) = (3, 4) against a
two-vertex reference; the attached elevation is a minimizing vertex
elevation. -/
theorem attach_elevation_nearest_witness :
    ([((0 : ℚ), (0 : ℚ), (50 : ℚ)), (3, 4, 77)] =
        ((0 : ℚ), (0 : ℚ), (50 : ℚ)) :: [((3 : ℚ), (4 : ℚ), (77 : ℚ))]) ∧
    0 < ([((0 : ℚ), (3 : ℚ), (4 : ℚ))] : List (ℚ × ℚ × ℚ)).length ∧
    (∃ k, k < ([((0 : ℚ), (0 : ℚ), (50 : ℚ)), (3, 4, 77)] :
          List (ℚ × ℚ × ℚ)).length ∧
      ((attach_elevation [(0, 3, 4)] [(0, 0, 50), (3, 4, 77)]).getD 0
          (0, 0, 0, 0)).2.2.2 =
        (([((0 : ℚ), (0 : ℚ), (50 : ℚ)), (3, 4, 77)] :
            List (ℚ × ℚ × ℚ)).getD k (0, 0, 0)).2.2 ∧
      ∀ j, j < ([((0 : ℚ), (0 : ℚ), (50 : ℚ)), (3, 4, 77)] :
          List (ℚ × ℚ × ℚ)).length →
        sqDist ((([((0 : ℚ), (3 : ℚ), (4 : ℚ))] :
              List (ℚ × ℚ × ℚ)).getD 0 (0, 0, 0)).2.1,
            (([((0 : ℚ), (3 : ℚ), (4 : ℚ))] :
              List (ℚ × ℚ × ℚ)).getD 0 (0, 0, 0)).2.2)
            ((([((0 : ℚ), (0 : ℚ), (50 : ℚ)), (3, 4, 77)] :
                List (ℚ × ℚ × ℚ)).getD k (0, 0, 0)).1,
              (([((0 : ℚ), (0 : ℚ), (50 : ℚ)), (3, 4, 77)] :
                List (ℚ × ℚ × ℚ)).getD k (0, 0, 0)).2.1) ≤
          sqDist ((([((0 : ℚ), (3 : ℚ), (4 : ℚ))] :
                List (ℚ × ℚ × ℚ)).getD 0 (0, 0, 0)).2.1,
              (([((0 : ℚ), (3 : ℚ), (4 : ℚ))] :
                List (ℚ × ℚ × ℚ)).getD 0 (0, 0, 0)).2.2)
            ((([((0 : ℚ), (0 : ℚ), (50 : ℚ)), (3, 4, 77)] :
                List (ℚ × ℚ × ℚ)).getD j (0, 0, 0)).1,
              (([((0 : ℚ), (0 : ℚ), (50 : ℚ)), (3, 4, 77)] :
                List (ℚ × ℚ × ℚ)).getD j (0, 0, 0)).2.1)) :=
  ⟨rfl, by decide,
    attach_elevation_nearest [(0, 3, 4)] [(0, 0, 50), (3, 4, 77)]
      (0, 0, 50) [(3, 4, 77)] rfl 0 (by decide)⟩

/-- C8: attach_elevation returns exactly one record per resampled point in
the same order, and the i-th record is the i-th input distance, then its
latitude, then its longitude, then an elevation value, in that field
order. -/
theorem attach_elevation_shape (points coords3 : List (ℚ × ℚ × ℚ)) :
    (attach_elevation points coords3).length = points.length ∧
    ∀ i, i < points.length →
      ∃ e, (attach_elevation points coords3).getD i (0, 0, 0, 0) =
        ((points.getD i (0, 0, 0)).1, (points.getD i (0, 0, 0)).2.2,
          (points.getD i (0, 0, 0)).2.1, e) := by
  constructor
  · simp [attach_elevation]
  · intro i hi
    refine ⟨(coords3.map fun c => c.2.2).getD
      (nearestIdx ((points.getD i (0, 0, 0)).2.1, (points.getD i (0, 0, 0)).2.2)
        (coords3.map fun c => (c.1, c.2.1))) 0, ?_⟩
    simp only [attach_elevation]
    exact getD_map_lt _ points i hi _ (0, 0, 0)

/-- Witness for C8 at a one-point sample list. -/
theorem attach_elevation_shape_witness :
    0 < ([((7 : ℚ), (1 : ℚ), (2 : ℚ))] : List (ℚ × ℚ × ℚ)).length ∧
    (attach_elevation [(7, 1, 2)] [(9, 9, 42)]).length =
      ([((7 : ℚ), (1 : ℚ), (2 : ℚ))] : List (ℚ × ℚ × ℚ)).length ∧
    ∃ e, (attach_elevation [(7, 1, 2)] [(9, 9, 42)]).getD 0 (0, 0, 0, 0) =
      ((([((7 : ℚ), (1 : ℚ), (2 : ℚ))] :
          List (ℚ × ℚ × ℚ)).getD 0 (0, 0, 0)).1,
        (([((7 : ℚ), (1 : ℚ), (2 : ℚ))] :
          List (ℚ × ℚ × ℚ)).getD 0 (0, 0, 0)).2.2,
        (([((7 : ℚ), (1 : ℚ), (2 : ℚ))] :
          List (ℚ × ℚ × ℚ)).getD 0 (0, 0, 0)).2.1, e) :=
  ⟨by decide, (attach_elevation_shape [(7, 1, 2)] [(9, 9, 42)]).1,
    (attach_elevation_shape [(7, 1, 2)] [(9, 9, 42)]).2 0 (by decide)⟩

/-- C10: attach_elevation keeps each input distance unchanged in the
corresponding output record, and the emitted elevation sequence depends
only on the per-point (lon, lat) components, not on the distances. -/
theorem attach_elevation_frame (points pts2 coords3 : List (ℚ × ℚ × ℚ))
    (h : points.map (fun t => (t.2.1, t.2.2)) = pts2.map fun t => (t.2.1, t.2.2)) :
    (∀ i, i < points.length →
      ((attach_elevation points coords3).getD i (0, 0, 0, 0)).1 =
        (points.getD i (0, 0, 0)).1) ∧
    (attach_elevation points coords3).map (fun r => r.2.2.2) =
      (attach_elevation pts2 coords3).map fun r => r.2.2.2 := by
  constructor
  · intro i hi
    have hout := getD_map_lt
      (fun q : ℚ × ℚ × ℚ =>
        (q.1, q.2.2, q.2.1,
          ((coords3.map fun c => c.2.2).getD
            (nearestIdx (q.2.1, q.2.2) (coords3.map fun c => (c.1, c.2.1))) 0)))
      points i hi (0, 0, 0, 0) (0, 0, 0)
    simp only [attach_elevation]
    rw [hout]
  · have key : ∀ l : List (ℚ × ℚ × ℚ),
        (attach_elevation l coords3).map (fun r => r.2.2.2) =
          (l.map fun t => (t.2.1, t.2.2)).map
            (fun p => ((coords3.map fun c => c.2.2).getD
              (nearestIdx p (coords3.map fun c => (c.1, c.2.1))) 0)) := by
      intro l
      simp only [attach_elevation, List.map_map]
      rfl
    rw [key points, key pts2, h]

/-- Witness for C10: two sample lists sharing (lon, lat) per index but with
different distances. -/
theorem attach_elevation_frame_witness :
    ([((1 : ℚ), (5 : ℚ), (6 : ℚ))].map (fun t => (t.2.1, t.2.2)) =
      [((2 : ℚ), (5 : ℚ), (6 : ℚ))].map fun t => (t.2.1, t.2.2)) ∧
    (∀ i, i < ([((1 : ℚ), (5 : ℚ), (6 : ℚ))] : List (ℚ × ℚ × ℚ)).length →
      ((attach_elevation [(1, 5, 6)] [(5, 6, 30)]).getD i (0, 0, 0, 0)).1 =
        (([((1 : ℚ), (5 : ℚ), (6 : ℚ))] :
          List (ℚ × ℚ × ℚ)).getD i (0, 0, 0)).1) ∧
    (attach_elevation [(1, 5, 6)] [(5, 6, 30)]).map (fun r => r.2.2.2) =
      (attach_elevation [(2, 5, 6)] [(5, 6, 30)]).map fun r => r.2.2.2 :=
  ⟨rfl,
    (attach_elevation_frame [(1, 5, 6)] [(2, 5, 6)] [(5, 6, 30)] rfl).1,
    (attach_elevation_frame [(1, 5, 6)] [(2, 5, 6)] [(5, 6, 30)] rfl).2⟩

/-- C3 (amended): over longitudes in [-180, 180] and any latitude the
selector is the pure function zone = floor((lon + 180) / 6) + 1 with
zone in 1..60 for lon in [-180, 180) and zone = 61 at lon = 180 exactly,
and the EPSG code is 32700 + zone for southern latitudes and
32600 + zone otherwise. -/
theorem get_utm_crs_spec (lon lat : ℚ) (h1 : -180 ≤ lon) (h2 : lon ≤ 180) :
    (1 ≤ utmZone lon ∧ utmZone lon ≤ 61) ∧
    (lon < 180 → utmZone lon ≤ 60) ∧
    (lat < 0 → get_utm_crs lon lat = 32700 + utmZone lon) ∧
    (0 ≤ lat → get_utm_crs lon lat = 32600 + utmZone lon) := by
  refine ⟨⟨?_, ?_⟩, ?_, ?_, ?_⟩
  · have hnn : (0 : ℚ) ≤ (lon + 180) / 6 :=
      div_nonneg (by linarith) (by norm_num)
    have h0 : (0 : ℤ) ≤ ⌊(lon + 180) / 6⌋ := Int.floor_nonneg.2 hnn
    simp only [utmZone]
    omega
  · have hle : (lon + 180) / 6 ≤ 60 := by
      rw [div_le_iff₀ (by norm_num : (0 : ℚ) < 6)]
      linarith
    have h0 : ⌊(lon + 180) / 6⌋ ≤ 60 := by
      have := Int.floor_le_floor hle
      simpa using this
    simp only [utmZone]
    omega
  · intro hlt
    have hle : (lon + 180) / 6 < 60 := by
      rw [div_lt_iff₀ (by norm_num : (0 : ℚ) < 6)]
      linarith
    have h0 : ⌊(lon + 180) / 6⌋ < 60 := Int.floor_lt.2 (by exact_mod_cast hle)
    simp only [utmZone]
    omega
  · intro hneg
    simp [get_utm_crs, hneg]
  · intro hge
    simp [get_utm_crs, not_lt.2 hge]

/-- Witness for C3 at longitude 3, latitude -5. -/
theorem get_utm_crs_spec_witness :
    (-180 : ℚ) ≤ 3 ∧ (3 : ℚ) ≤ 180 ∧
    ((1 ≤ utmZone 3 ∧ utmZone 3 ≤ 61) ∧
      ((3 : ℚ) < 180 → utmZone 3 ≤ 60) ∧
      ((-5 : ℚ) < 0 → get_utm_crs 3 (-5) = 32700 + utmZone 3) ∧
      ((0 : ℚ) ≤ -5 → get_utm_crs 3 (-5) = 32600 + utmZone 3)) :=
  ⟨by norm_num, by norm_num,
    get_utm_crs_spec 3 (-5) (by norm_num) (by norm_num)⟩

/-- C3 counterexample: longitude 180 lies in the claimed domain but its
zone is 61, outside 1..60 (the code maps it to EPSG 32761 in the south). -/
theorem get_utm_crs_zone61_at_180 :
    (-180 : ℚ) ≤ 180 ∧ (180 : ℚ) ≤ 180 ∧ utmZone 180 = 61 ∧
    ¬ utmZone 180 ≤ 60 ∧ get_utm_crs 180 (-1) = 32761 := by
  refine ⟨by norm_num, by norm_num, ?_, ?_, ?_⟩ <;>
    norm_num [utmZone, get_utm_crs,
      show ((180 : ℚ) + 180) / 6 = 60 from by norm_num]

/-- Helper for concrete counterexamples: the 3-4-5 segment length. -/
lemma sqrt_twentyfive : Real.sqrt 25 = 5 := by
  rw [show (25 : ℝ) = 5 ^ 2 from by norm_num]
  exact Real.sqrt_sq (by norm_num)

/-- C6 counterexample: a 2-vertex route whose longitudes lie outside
[-180, 180] is not rejected and produces no error: the call returns an
ordinary sample list. -/
theorem interpolate_points_accepts_out_of_range :
    ¬ ((200 : ℚ) ≤ 180) ∧
    interpolate_points flatProj [(200, 0, 0), (203, 4, 0)] 10 =
      .ok [(0, 0, 0)] := by
  refine ⟨by norm_num, ?_⟩
  rw [interpolate_points_ok flatProj (200, 0, 0) (203, 4, 0) [] 10
    (by norm_num)]
  have hL : lineLength
      (planarOf flatProj (get_utm_crs 200 0) [(200, 0, 0), (203, 4, 0)]) = 5 := by
    simp only [planarOf, List.map_cons, List.map_nil, flatProj, lineLength,
      segLen]
    norm_num
    exact sqrt_twentyfive
  rw [hL]
  have hfl : ⌊(5 : ℝ) / ((10 : ℚ) : ℝ)⌋ = 0 := by
    rw [show ((10 : ℚ) : ℝ) = 10 from by norm_num]
    apply Int.floor_eq_zero_iff.2
    constructor <;> norm_num
  rw [hfl]
  norm_num
  rw [show List.range 1 = [0] from rfl, List.map_singleton]
  norm_num [flatProj]

/-- C6 (amended): a route with fewer than 2 vertices makes
interpolate_points fail (IndexError on an empty route, the one-point
LineString refusal on a singleton) with no output; out-of-range
coordinates, however, are not validated (see the counterexample). -/
theorem interpolate_points_short_input_error (P : ProjLib)
    (coords3 : List (ℚ × ℚ × ℚ)) (interval_m : ℚ)
    (h : coords3.length < 2) :
    ∃ e, interpolate_points P coords3 interval_m = .error e := by
  cases coords3 with
  | nil => exact ⟨.indexError, rfl⟩
  | cons c0 rest =>
    cases rest with
    | nil => exact ⟨.valueError, rfl⟩
    | cons c1 r2 =>
      simp only [List.length_cons] at h
      omega

/-- Witness for C6 on the empty route. -/
theorem interpolate_points_short_input_error_witness :
    ([] : List (ℚ × ℚ × ℚ)).length < 2 ∧
    ∃ e, interpolate_points constProj [] 1 = .error e :=
  ⟨by decide, interpolate_points_short_input_error constProj [] 1 (by decide)⟩

/-- C7 counterexample: interval -10 on a 5-metre route is not rejected:
the call silently returns an empty sample list instead of an error. -/
theorem interpolate_points_negative_interval_ok :
    (-10 : ℚ) ≤ 0 ∧
    interpolate_points flatProj [(0, 0, 0), (3, 4, 0)] (-10) = .ok [] := by
  refine ⟨by norm_num, ?_⟩
  rw [interpolate_points_ok flatProj (0, 0, 0) (3, 4, 0) [] (-10)
    (by norm_num)]
  have hL : lineLength
      (planarOf flatProj (get_utm_crs 0 0) [(0, 0, 0), (3, 4, 0)]) = 5 := by
    simp only [planarOf, List.map_cons, List.map_nil, flatProj, lineLength,
      segLen]
    norm_num
    exact sqrt_twentyfive
  rw [hL]
  have hfl : ⌊(5 : ℝ) / ((-10 : ℚ) : ℝ)⌋ = -1 := by
    rw [show ((-10 : ℚ) : ℝ) = -10 from by norm_num]
    rw [show (5 : ℝ) / (-10) = -(1 / 2) from by norm_num]
    apply Int.floor_eq_iff.2
    constructor <;> norm_num
  rw [hfl]
  norm_num

/-- C7 (amended): a zero interval fails with the ZeroDivisionError of
total_len / interval_m, returning nothing, but a negative interval is not
rejected: the call returns an ok (empty or single-sample) result. -/
theorem interpolate_points_nonpositive_interval (P : ProjLib)
    (c0 c1 : ℚ × ℚ × ℚ) (rest : List (ℚ × ℚ × ℚ)) :
    interpolate_points P (c0 :: c1 :: rest) 0 = .error .zeroDivisionError ∧
    ∀ interval_m : ℚ, interval_m < 0 →
      ∃ pts, interpolate_points P (c0 :: c1 :: rest) interval_m = .ok pts := by
  constructor
  · simp [interpolate_points]
  · intro itv hneg
    exact ⟨_, interpolate_points_ok P c0 c1 rest itv (ne_of_lt hneg)⟩
